import Mathlib

/-!
Verification of the text-moderation pipeline of the ttsEdge API repository.

The development shallowly embeds three source modules:
* the `FilterManager` allow/deny list engine (`src/unnamed/part_002`),
* the `SpamCleaner` repetition normalizer (`src/filters/spam-cleaner.ts`),
* the `ConfigurableReplacer` template substitution engine
  (`src/controllers/ConfigurableReplacer.ts`).

Modelling conventions:
* JavaScript strings are modelled as `List Char`.  JS `String.prototype.length`
  counts UTF-16 code units; on the texts the claims quantify over (Basic
  Multilingual Plane characters) this agrees with the length of the char list.
* `Date` values are modelled as natural-number timestamps (milliseconds);
  `Date.now()` is passed in explicitly as a `now : Nat` parameter.
* `toLocaleString` (only used to render an expiry timestamp into a message)
  is modelled as decimal rendering of the timestamp; the claims only depend
  on which timestamp is rendered, not on the locale format.
* `String.prototype.toLowerCase` is modelled as ASCII lowering, and
  `String.prototype.trim` strips the ASCII whitespace characters; the claims
  do not depend on the full Unicode tables.
-/

namespace TtsEdge

/-- ASCII whitespace, the subset of JS `trim`'s whitespace class the model
strips. -/
def isWs (c : Char) : Bool :=
  c = ' ' || c = '\t' || c = '\n' || c = '\r'

/-- JS `String.prototype.trim` (ASCII whitespace). -/
def trimL (s : List Char) : List Char :=
  ((s.dropWhile isWs).reverse.dropWhile isWs).reverse

/-- ASCII lowering of one character, modelling JS `toLowerCase`. -/
def lowerCh (c : Char) : Char :=
  if 'A' ≤ c ∧ c ≤ 'Z' then Char.ofNat (c.toNat + 32) else c

/-- JS `String.prototype.toLowerCase` (ASCII). -/
def toLowerL (s : List Char) : List Char :=
  s.map lowerCh

/-- Test that the second list begins with the first. -/
def startsWithL : List Char → List Char → Bool
  | [], _ => true
  | _ :: _, [] => false
  | p :: ps, c :: cs => p = c && startsWithL ps cs

/-- JS `hay.includes(pat)`: `pat` occurs contiguously in `hay` (the empty
pattern always occurs). -/
def containsSub : List Char → List Char → Bool
  | [], pat => pat.isEmpty
  | c :: t, pat => startsWithL pat (c :: t) || containsSub t pat

/-! ## FilterManager (`src/unnamed/part_002`)

A deny-list entry is either a plain string or a `{ item, expiresAt }` record
(`expiresAt : Date | null`). -/

/-- A `Filter.blackList` element: `string | { item; expiresAt: Date | null }`. -/
inductive BlackItem where
  | plain (s : List Char)
  | timed (s : List Char) (expiresAt : Option Nat)
  deriving DecidableEq, Repr

/-- Source `FilterManager.normalizeItem`: trim the payload of either entry form. -/
def normalizeItem : BlackItem → List Char
  | .plain s => trimL s
  | .timed s _ => trimL s

/-- Source `FilterManager.isItemExpired`, guarded as in `checkString` by
`typeof blackItem !== 'string'`: a plain string is never expired; a timed
entry is expired when `expiresAt !== null && new Date() > expiresAt`. -/
def isExpiredEntry (now : Nat) : BlackItem → Bool
  | .plain _ => false
  | .timed _ none => false
  | .timed _ (some t) => decide (t < now)

/-- The `Filter` record of `src/unnamed/part_002`. -/
structure Filter where
  id : List Char
  blackList : List BlackItem
  whiteList : List (List Char)
  createdAt : Nat
  updatedAt : Nat
  isActive : Bool
  deriving DecidableEq, Repr

/-- Source `CheckOptions`; callers that omit a field get the source defaults
`{caseSensitive:false, exactMatch:false, partialMatch:true}`
(see `defaultOpts`). -/
structure CheckOptions where
  caseSensitive : Bool
  exactMatch : Bool
  partialMatch : Bool
  deriving DecidableEq, Repr

/-- The destructuring defaults of `checkString`. -/
def defaultOpts : CheckOptions := ⟨false, false, true⟩

/-- The `reason` field of a `CheckResult`. -/
inductive Reason where
  | blacklist
  | whitelist
  | none
  deriving DecidableEq, Repr

/-- The `CheckResult` record of `src/unnamed/part_002`. -/
structure CheckResult where
  isAllowed : Bool
  isBlocked : Bool
  matchedBlackList : List BlackItem
  matchedWhiteList : List (List Char)
  reason : Reason
  expirationReason : Option (List Char)
  deriving DecidableEq, Repr

/-- The fixed text prepended by
``expirationReason = `Blocked until ${...}` ``. -/
def blockedUntil : List Char :=
  ['B', 'l', 'o', 'c', 'k', 'e', 'd', ' ', 'u', 'n', 't', 'i', 'l', ' ']

/-- The expiration message built at a deny match
(`toLocaleString` modelled as decimal rendering of the timestamp). -/
def blockedMsg (t : Nat) : List Char :=
  blockedUntil ++ Nat.toDigits 10 t

/-- The expiry message a deny entry contributes when it matches: only a
non-string entry with a non-null `expiresAt` sets `expirationReason`. -/
def expiryMsgOf : BlackItem → Option (List Char)
  | .timed _ (some t) => some (blockedMsg t)
  | _ => Option.none

/-- Comparison of the processed text against one processed entry under the
option flags: `exactMatch` means full equality, else `partialMatch` means
substring containment, else no match. -/
def matchesMode (ex pm : Bool) (pt cand : List Char) : Bool :=
  if ex then pt == cand else if pm then containsSub pt cand else false

/-- Value of `processedBlackItem` for one deny entry. -/
def blackMatchKey (cs : Bool) (b : BlackItem) : List Char :=
  if cs then normalizeItem b else toLowerL (normalizeItem b)

/-- One iteration of `checkString`'s deny-list loop: skip expired non-string
entries, otherwise normalize, compare under the option flags, and on a match
append the entry to `matchedBlackList` and overwrite `expirationReason`
when the entry carries an expiry. -/
def stepBlack (cs ex pm : Bool) (now : Nat) (pt : List Char)
    (st : List BlackItem × Option (List Char)) (b : BlackItem) :
    List BlackItem × Option (List Char) :=
  if isExpiredEntry now b then st
  else if matchesMode ex pm pt (blackMatchKey cs b) then
    (st.1 ++ [b],
     match expiryMsgOf b with
     | some msg => some msg
     | Option.none => st.2)
  else st

/-- One iteration of `checkString`'s allow-list loop. -/
def stepWhite (cs ex pm : Bool) (pt : List Char)
    (acc : List (List Char)) (w : List Char) : List (List Char) :=
  if matchesMode ex pm pt (if cs then w else toLowerL w) then acc ++ [w]
  else acc

/-- The scanning phase of `FilterManager.checkString`: walk every active
filter's deny list (accumulating matches and the overwritten
`expirationReason`) and allow list. -/
def checkScan (filters : List Filter) (now : Nat) (text : List Char)
    (opts : CheckOptions) :
    (List BlackItem × Option (List Char)) × List (List Char) :=
  let pt := if opts.caseSensitive then text else toLowerL text
  let act := filters.filter (·.isActive)
  let bst := act.foldl
    (fun st f =>
      f.blackList.foldl
        (stepBlack opts.caseSensitive opts.exactMatch opts.partialMatch now pt) st)
    ([], Option.none)
  let wl := act.foldl
    (fun acc f =>
      f.whiteList.foldl
        (stepWhite opts.caseSensitive opts.exactMatch opts.partialMatch pt) acc)
    []
  (bst, wl)

/-- Source `FilterManager.checkString`: scan, then decide
(allow list has priority over deny list). -/
def checkString (filters : List Filter) (now : Nat) (text : List Char)
    (opts : CheckOptions) : CheckResult :=
  let r := checkScan filters now text opts
  if 0 < r.2.length then
    ⟨true, false, r.1.1, r.2, Reason.whitelist, Option.none⟩
  else if 0 < r.1.1.length then
    ⟨false, true, r.1.1, r.2, Reason.blacklist, r.1.2⟩
  else
    ⟨true, false, r.1.1, r.2, Reason.none, Option.none⟩

/-- Convenience methods `isAllowed` / `isBlocked` of `FilterManager`. -/
def isAllowedText (filters : List Filter) (now : Nat) (text : List Char)
    (opts : CheckOptions) : Bool :=
  (checkString filters now text opts).isAllowed

/-- The constant id `"default"` hard-coded in `createFilter`. -/
def defaultId : List Char := ['d', 'e', 'f', 'a', 'u', 'l', 't']

/-- Source `FilterManager.createFilter`: build a filter whose id is the
constant `"default"`, trim both initial lists, push it onto the table and
return it (the boolean save is modelled by returning the new table). -/
def createFilter (filters : List Filter) (now : Nat)
    (bl wl : List (List Char)) : List Filter × Filter :=
  let nf : Filter :=
    { id := defaultId
      blackList := bl.map (fun s => BlackItem.plain (trimL s))
      whiteList := wl.map trimL
      createdAt := now
      updatedAt := now
      isActive := true }
  (filters ++ [nf], nf)

/-- Source `FilterManager.getFilter`: `this.filters.find(f => f.id === id)`,
which returns the first filter with the given id. -/
def getFilter (filters : List Filter) (id : List Char) : Option Filter :=
  filters.find? (fun f => f.id == id)

/-- Update the first filter satisfying `p` (the `this.filters.find` pattern
shared by the mutating operations); the boolean is the operation's return
value (`false` when no filter matches). -/
def updateFirst (p : Filter → Bool) (g : Filter → Filter) :
    List Filter → List Filter × Bool
  | [] => ([], false)
  | f :: fs =>
    if p f then (g f :: fs, true)
    else
      let r := updateFirst p g fs
      (f :: r.1, r.2)

/-- The entry built for one item of `addToBlackList`:
`expiresInSeconds ? new Date(Date.now() + expiresInSeconds * 1000) : null`
(JS truthiness: `0` and `null` both yield a plain trimmed string entry). -/
def newBlackEntry (now : Nat) (expiresInSeconds : Option Nat)
    (item : List Char) : BlackItem :=
  match expiresInSeconds with
  | some n =>
    if n ≠ 0 then BlackItem.timed (trimL item) (some (now + n * 1000))
    else BlackItem.plain (trimL item)
  | Option.none => BlackItem.plain (trimL item)

/-- The de-duplication of `addToBlackList`:
`list.filter((v, i, self) => i === self.findIndex(t => norm t === norm v))`
keeps exactly the first occurrence of each trim-normalized identity, which
this recursion implements with the set `seen` of identities already kept. -/
def dedupGo (seen : List (List Char)) : List BlackItem → List BlackItem
  | [] => []
  | x :: xs =>
    if normalizeItem x ∈ seen then dedupGo seen xs
    else x :: dedupGo (normalizeItem x :: seen) xs

/-- The update `addToBlackList` performs on the found filter: append the new
entries, de-duplicate by normalized identity, bump `updatedAt`. -/
def addBlackUpdate (now : Nat) (items : List (List Char))
    (expiresInSeconds : Option Nat) (f : Filter) : Filter :=
  { f with
    blackList := dedupGo []
      (f.blackList ++ items.map (newBlackEntry now expiresInSeconds))
    updatedAt := now }

/-- Source `FilterManager.addToBlackList` (table-level; the boolean is the
method's return value). -/
def addToBlackList (filters : List Filter) (now : Nat) (id : List Char)
    (items : List (List Char)) (expiresInSeconds : Option Nat) :
    List Filter × Bool :=
  updateFirst (fun f => f.id == id) (addBlackUpdate now items expiresInSeconds)
    filters

/-- Source `FilterManager.toggleFilter`. -/
def toggleFilter (filters : List Filter) (now : Nat) (id : List Char)
    (active : Option Bool) : List Filter × Bool :=
  updateFirst (fun f => f.id == id)
    (fun f =>
      { f with
        isActive := match active with
          | some b => b
          | Option.none => !f.isActive
        updatedAt := now })
    filters

/-- Source `FilterManager.deleteFilter`: `findIndex` + `splice(index, 1)`
removes the first filter with the given id. -/
def deleteFilter (filters : List Filter) (id : List Char) :
    List Filter × Bool :=
  match filters with
  | [] => ([], false)
  | f :: fs =>
    if f.id == id then (fs, true)
    else
      let r := deleteFilter fs id
      (f :: r.1, r.2)

/-- Keep predicate of the expiry sweep: retain plain strings and unexpired
timed entries. -/
def keepEntry (now : Nat) (b : BlackItem) : Bool :=
  !isExpiredEntry now b

/-- Per-filter action of `cleanExpiredBlacklistItems`: filter the deny list;
when an entry was dropped, bump `updatedAt`. -/
def sweepFilter (now : Nat) (f : Filter) : Filter :=
  let bl := f.blackList.filter (keepEntry now)
  if bl.length < f.blackList.length then
    { f with blackList := bl, updatedAt := now }
  else
    { f with blackList := bl }

/-- Source `FilterManager.cleanExpiredBlacklistItems`: sweep every filter;
the boolean is the `changed` flag (set exactly when some deny entry is
removed, i.e. when some deny entry of some filter is expired), which gates
the `saveFilters()` persistence call. -/
def cleanExpiredBlacklistItems (now : Nat) (filters : List Filter) :
    List Filter × Bool :=
  (filters.map (sweepFilter now),
   filters.any (fun f => f.blackList.any (isExpiredEntry now)))

/-- The state transform "expired-but-not-yet-swept deny entries are absent":
drop every currently-expired deny entry, touching nothing else. -/
def removeExpired (now : Nat) (filters : List Filter) : List Filter :=
  filters.map fun f => { f with blackList := f.blackList.filter (keepEntry now) }

/-! ### Basic facts about `checkString` -/

theorem checkString_matchedWhiteList (filters : List Filter) (now : Nat)
    (text : List Char) (opts : CheckOptions) :
    (checkString filters now text opts).matchedWhiteList =
      (checkScan filters now text opts).2 := by
  simp only [checkString]
  split
  · rfl
  · split <;> rfl

theorem checkString_matchedBlackList (filters : List Filter) (now : Nat)
    (text : List Char) (opts : CheckOptions) :
    (checkString filters now text opts).matchedBlackList =
      (checkScan filters now text opts).1.1 := by
  simp only [checkString]
  split
  · rfl
  · split <;> rfl

/-- C1: for every filter-set table state and every text, if `checkString`
finds at least one allow-list match on any active filter set (its verdict's
`matchedWhiteList` is non-empty), it returns `isAllowed = true` with reason
`"whitelist"`, regardless of how many deny-list matches were also found. -/
theorem claim1_allow_match_overrides_deny (filters : List Filter) (now : Nat)
    (text : List Char) (opts : CheckOptions)
    (h : (checkString filters now text opts).matchedWhiteList ≠ []) :
    (checkString filters now text opts).isAllowed = true ∧
    (checkString filters now text opts).reason = Reason.whitelist := by
  rw [checkString_matchedWhiteList] at h
  have hw : 0 < (checkScan filters now text opts).2.length :=
    List.length_pos.mpr h
  simp only [checkString]
  rw [if_pos hw]
  exact ⟨rfl, rfl⟩

/-- A concrete state in which a text matches both a deny entry and an allow
entry of the single active filter. -/
def wit1State : List Filter :=
  [⟨defaultId, [BlackItem.plain ['a']], [['a']], 0, 0, true⟩]

/-- Witness for C1: in `wit1State` the text `"a"` matches both lists, the
allow-list hypothesis holds, and the verdict is `whitelist`/allowed. -/
theorem claim1_witness :
    (checkString wit1State 0 ['a'] defaultOpts).matchedWhiteList ≠ [] ∧
    ((checkString wit1State 0 ['a'] defaultOpts).isAllowed = true ∧
     (checkString wit1State 0 ['a'] defaultOpts).reason = Reason.whitelist) :=
  ⟨by decide, claim1_allow_match_overrides_deny wit1State 0 ['a'] defaultOpts (by decide)⟩

/-! ### C10: both comparison modes disabled -/

theorem stepBlack_noMode (cs : Bool) (now : Nat) (pt : List Char)
    (st : List BlackItem × Option (List Char)) (b : BlackItem) :
    stepBlack cs false false now pt st b = st := by
  unfold stepBlack
  split <;> rfl

theorem stepWhite_noMode (cs : Bool) (pt : List Char)
    (acc : List (List Char)) (w : List Char) :
    stepWhite cs false false pt acc w = acc := rfl

theorem foldl_stepBlack_noMode (cs : Bool) (now : Nat) (pt : List Char)
    (fs : List Filter) (st : List BlackItem × Option (List Char)) :
    fs.foldl
      (fun st f => f.blackList.foldl (stepBlack cs false false now pt) st)
      st = st := by
  induction fs generalizing st with
  | nil => rfl
  | cons f fs ih =>
    rw [List.foldl_cons]
    have hbl : ∀ (l : List BlackItem) st,
        l.foldl (stepBlack cs false false now pt) st = st := by
      intro l
      induction l with
      | nil => intro st; rfl
      | cons b l ihl =>
        intro st
        rw [List.foldl_cons, stepBlack_noMode]
        exact ihl st
    rw [hbl]
    exact ih st

theorem foldl_stepWhite_noMode (cs : Bool) (pt : List Char)
    (fs : List Filter) (acc : List (List Char)) :
    fs.foldl
      (fun acc f => f.whiteList.foldl (stepWhite cs false false pt) acc)
      acc = acc := by
  induction fs generalizing acc with
  | nil => rfl
  | cons f fs ih =>
    rw [List.foldl_cons]
    have hwl : ∀ (l : List (List Char)) acc,
        l.foldl (stepWhite cs false false pt) acc = acc := by
      intro l
      induction l with
      | nil => intro acc; rfl
      | cons w l ihl =>
        intro acc
        rw [List.foldl_cons, stepWhite_noMode]
        exact ihl acc
    rw [hwl]
    exact ih acc

theorem checkScan_noMode (filters : List Filter) (now : Nat)
    (text : List Char) (cs : Bool) :
    checkScan filters now text ⟨cs, false, false⟩ = (([], Option.none), []) := by
  simp only [checkScan]
  rw [foldl_stepBlack_noMode, foldl_stepWhite_noMode]

/-- C10: with `{exactMatch:false, partialMatch:false}` no deny and no allow
match is ever recorded, so `checkString` always returns
`{isAllowed:true, isBlocked:false, reason:"none"}`, whatever the lists
contain. -/
theorem claim10_no_mode_always_allows (filters : List Filter) (now : Nat)
    (text : List Char) (cs : Bool) :
    checkString filters now text ⟨cs, false, false⟩ =
      ⟨true, false, [], [], Reason.none, Option.none⟩ := by
  simp only [checkString, checkScan_noMode]
  rfl

/-! ### C3: expired deny entries are inert -/

theorem stepBlack_expired (cs ex pm : Bool) (now : Nat) (pt : List Char)
    (st : List BlackItem × Option (List Char)) (b : BlackItem)
    (h : isExpiredEntry now b = true) :
    stepBlack cs ex pm now pt st b = st := by
  unfold stepBlack
  rw [if_pos h]

theorem foldl_stepBlack_keepEntry (cs ex pm : Bool) (now : Nat)
    (pt : List Char) (l : List BlackItem)
    (st : List BlackItem × Option (List Char)) :
    (l.filter (keepEntry now)).foldl (stepBlack cs ex pm now pt) st =
      l.foldl (stepBlack cs ex pm now pt) st := by
  induction l generalizing st with
  | nil => rfl
  | cons b l ih =>
    cases hb : isExpiredEntry now b with
    | true =>
      have hk : keepEntry now b = false := by simp [keepEntry, hb]
      rw [List.filter_cons, if_neg (by simp [hk]), List.foldl_cons,
        stepBlack_expired cs ex pm now pt st b hb]
      exact ih st
    | false =>
      have hk : keepEntry now b = true := by simp [keepEntry, hb]
      rw [List.filter_cons, if_pos (by simp [hk]), List.foldl_cons,
        List.foldl_cons]
      exact ih _

theorem checkScan_removeExpired (filters : List Filter) (now : Nat)
    (text : List Char) (opts : CheckOptions) :
    checkScan (removeExpired now filters) now text opts =
      checkScan filters now text opts := by
  simp only [checkScan, removeExpired]
  rw [List.filter_map]
  have hact : ((·.isActive) ∘
      fun f => { f with blackList := f.blackList.filter (keepEntry now) }) =
      (fun f : Filter => f.isActive) := rfl
  rw [hact, List.foldl_map, List.foldl_map]
  have hb : (fun st (f : Filter) =>
      List.foldl
        (stepBlack opts.caseSensitive opts.exactMatch opts.partialMatch now
          (if opts.caseSensitive then text else toLowerL text))
        st (f.blackList.filter (keepEntry now))) =
      (fun st f =>
        List.foldl
          (stepBlack opts.caseSensitive opts.exactMatch opts.partialMatch now
            (if opts.caseSensitive then text else toLowerL text))
          st f.blackList) := by
    funext st f
    exact foldl_stepBlack_keepEntry _ _ _ _ _ _ _
  rw [show (fun st (f : Filter) =>
      List.foldl
        (stepBlack opts.caseSensitive opts.exactMatch opts.partialMatch now
          (if opts.caseSensitive then text else toLowerL text))
        st ({ f with blackList := f.blackList.filter (keepEntry now) } :
          Filter).blackList) =
      (fun st (f : Filter) =>
        List.foldl
          (stepBlack opts.caseSensitive opts.exactMatch opts.partialMatch now
            (if opts.caseSensitive then text else toLowerL text))
          st (f.blackList.filter (keepEntry now))) from rfl, hb]

theorem stepBlack_preserves_unexpired (cs ex pm : Bool) (now : Nat)
    (pt : List Char) (st : List BlackItem × Option (List Char)) (b : BlackItem)
    (hst : ∀ x ∈ st.1, isExpiredEntry now x = false) :
    ∀ x ∈ (stepBlack cs ex pm now pt st b).1, isExpiredEntry now x = false := by
  unfold stepBlack
  by_cases hb : isExpiredEntry now b = true
  · rw [if_pos hb]
    exact hst
  · rw [if_neg hb]
    by_cases hm : matchesMode ex pm pt (blackMatchKey cs b) = true
    · rw [if_pos hm]
      intro x hx
      rcases List.mem_append.mp hx with hx | hx
      · exact hst x hx
      · have hxb : x = b := List.mem_singleton.mp hx
        subst hxb
        cases h : isExpiredEntry now x
        · rfl
        · exact absurd h hb
    · rw [if_neg hm]
      exact hst

theorem foldl_stepBlack_unexpired (cs ex pm : Bool) (now : Nat)
    (pt : List Char) (l : List BlackItem)
    (st : List BlackItem × Option (List Char))
    (hst : ∀ x ∈ st.1, isExpiredEntry now x = false) :
    ∀ x ∈ (l.foldl (stepBlack cs ex pm now pt) st).1,
      isExpiredEntry now x = false := by
  induction l generalizing st with
  | nil => exact hst
  | cons b l ih =>
    rw [List.foldl_cons]
    exact ih _ (stepBlack_preserves_unexpired cs ex pm now pt st b hst)

theorem filters_foldl_black_unexpired (cs ex pm : Bool) (now : Nat)
    (pt : List Char) (fs : List Filter)
    (st : List BlackItem × Option (List Char))
    (hst : ∀ x ∈ st.1, isExpiredEntry now x = false) :
    ∀ x ∈ (fs.foldl
        (fun st f => f.blackList.foldl (stepBlack cs ex pm now pt) st) st).1,
      isExpiredEntry now x = false := by
  induction fs generalizing st with
  | nil => exact hst
  | cons f fs ih =>
    rw [List.foldl_cons]
    exact ih _ (foldl_stepBlack_unexpired cs ex pm now pt f.blackList st hst)

theorem checkScan_unexpired (filters : List Filter) (now : Nat)
    (text : List Char) (opts : CheckOptions) :
    ∀ x ∈ (checkScan filters now text opts).1.1,
      isExpiredEntry now x = false := by
  simp only [checkScan]
  exact filters_foldl_black_unexpired _ _ _ _ _ _ _ (by intro x hx; cases hx)

/-- C3: a deny entry that is currently expired is inert: `checkString`
computes the same verdict as on the state with every expired deny entry
physically removed, and no expired entry ever appears in the verdict's
`matchedBlackList` (hence an expired entry can never cause a blacklist
verdict). -/
theorem claim3_expired_deny_entries_inert (filters : List Filter) (now : Nat)
    (text : List Char) (opts : CheckOptions) :
    checkString filters now text opts =
      checkString (removeExpired now filters) now text opts ∧
    ∀ b ∈ (checkString filters now text opts).matchedBlackList,
      isExpiredEntry now b = false := by
  constructor
  · simp only [checkString, checkScan_removeExpired]
  · rw [checkString_matchedBlackList]
    exact checkScan_unexpired filters now text opts

/-! ### C5: which deny match supplies `expirationReason`

The source overwrites `expirationReason` at every expiring deny match, so
the verdict carries the message of the last such match in scan order. -/

theorem stepBlack_expiry_inv (cs ex pm : Bool) (now : Nat) (pt : List Char)
    (st : List BlackItem × Option (List Char)) (b : BlackItem)
    (h : st.2 = (st.1.filterMap expiryMsgOf).getLast?) :
    (stepBlack cs ex pm now pt st b).2 =
      (((stepBlack cs ex pm now pt st b).1).filterMap expiryMsgOf).getLast? := by
  unfold stepBlack
  by_cases hb : isExpiredEntry now b = true
  · rw [if_pos hb]
    exact h
  · rw [if_neg hb]
    by_cases hm : matchesMode ex pm pt (blackMatchKey cs b) = true
    · rw [if_pos hm]
      cases he : expiryMsgOf b with
      | some msg =>
        simp [List.filterMap_append, List.filterMap_cons, he,
          List.getLast?_concat]
      | none =>
        simp [List.filterMap_append, List.filterMap_cons, he, h]
    · rw [if_neg hm]
      exact h

theorem foldl_stepBlack_expiry_inv (cs ex pm : Bool) (now : Nat)
    (pt : List Char) (l : List BlackItem)
    (st : List BlackItem × Option (List Char))
    (h : st.2 = (st.1.filterMap expiryMsgOf).getLast?) :
    (l.foldl (stepBlack cs ex pm now pt) st).2 =
      (((l.foldl (stepBlack cs ex pm now pt) st).1).filterMap
        expiryMsgOf).getLast? := by
  induction l generalizing st with
  | nil => exact h
  | cons b l ih =>
    rw [List.foldl_cons]
    exact ih _ (stepBlack_expiry_inv cs ex pm now pt st b h)

theorem filters_foldl_expiry_inv (cs ex pm : Bool) (now : Nat)
    (pt : List Char) (fs : List Filter)
    (st : List BlackItem × Option (List Char))
    (h : st.2 = (st.1.filterMap expiryMsgOf).getLast?) :
    (fs.foldl
      (fun st f => f.blackList.foldl (stepBlack cs ex pm now pt) st) st).2 =
      ((fs.foldl
        (fun st f => f.blackList.foldl (stepBlack cs ex pm now pt) st)
        st).1.filterMap expiryMsgOf).getLast? := by
  induction fs generalizing st with
  | nil => exact h
  | cons f fs ih =>
    rw [List.foldl_cons]
    exact ih _ (foldl_stepBlack_expiry_inv cs ex pm now pt f.blackList st h)

theorem checkScan_expiry_inv (filters : List Filter) (now : Nat)
    (text : List Char) (opts : CheckOptions) :
    (checkScan filters now text opts).1.2 =
      (((checkScan filters now text opts).1.1).filterMap
        expiryMsgOf).getLast? := by
  simp only [checkScan]
  exact filters_foldl_expiry_inv _ _ _ _ _ _ _ rfl

/-- A state with two timed deny entries, expiring at 100 and 200, both
matching the text `"ab"`. -/
def cex5State : List Filter :=
  [⟨defaultId,
    [BlackItem.timed ['a'] (some 100), BlackItem.timed ['b'] (some 200)],
    [], 0, 0, true⟩]

/-- Counterexample to C5: in `cex5State`, the first deny match in scan order
that carries an expiry is the entry `"a"` with expiry 100, yet the verdict's
`expirationReason` renders the expiry 200 of the later match `"b"` — the
source overwrites the reason at every expiring match, so the last one wins,
not the first. -/
theorem claim5_counterexample :
    (checkString cex5State 0 ['a', 'b'] defaultOpts).matchedBlackList =
      [BlackItem.timed ['a'] (some 100), BlackItem.timed ['b'] (some 200)] ∧
    (checkString cex5State 0 ['a', 'b'] defaultOpts).reason =
      Reason.blacklist ∧
    (checkString cex5State 0 ['a', 'b'] defaultOpts).expirationReason =
      some (blockedMsg 200) ∧
    blockedMsg 200 ≠ blockedMsg 100 := by decide

/-- C5 (amended): when `checkString` finds deny matches and no allow match,
the verdict has reason `"blacklist"` and its `expirationReason` is taken
from the last deny match (in scan order) that carries an expiry
timestamp. -/
theorem claim5_amended_expiration_from_last_match (filters : List Filter)
    (now : Nat) (text : List Char) (opts : CheckOptions)
    (h : (checkString filters now text opts).reason = Reason.blacklist) :
    (checkString filters now text opts).expirationReason =
      (((checkString filters now text opts).matchedBlackList).filterMap
        expiryMsgOf).getLast? := by
  simp only [checkString] at h ⊢
  by_cases hw : 0 < (checkScan filters now text opts).2.length
  · rw [if_pos hw] at h
    simp at h
  · rw [if_neg hw] at h ⊢
    by_cases hbl : 0 < (checkScan filters now text opts).1.1.length
    · rw [if_pos hbl]
      exact checkScan_expiry_inv filters now text opts
    · rw [if_neg hbl] at h
      simp at h

/-- Witness for the amended C5 at the concrete state `cex5State`. -/
theorem claim5_witness :
    (checkString cex5State 0 ['a', 'b'] defaultOpts).reason =
      Reason.blacklist ∧
    (checkString cex5State 0 ['a', 'b'] defaultOpts).expirationReason =
      (((checkString cex5State 0 ['a', 'b'] defaultOpts).matchedBlackList
        ).filterMap expiryMsgOf).getLast? :=
  ⟨by decide,
   claim5_amended_expiration_from_last_match cex5State 0 ['a', 'b']
     defaultOpts (by decide)⟩

/-! ### C4: de-duplication in `addToBlackList`

The source keeps, for each normalized identity, the element whose index
equals the `findIndex` of that identity — that is, the first occurrence in
`existing ++ new`, so a colliding insert keeps the existing entry's
metadata, not the new one's. -/

theorem dedupGo_norm_notin_seen (l : List BlackItem) (seen : List (List Char)) :
    ∀ x ∈ dedupGo seen l, normalizeItem x ∉ seen := by
  induction l generalizing seen with
  | nil => intro x hx; cases hx
  | cons a l ih =>
    intro x hx
    unfold dedupGo at hx
    by_cases ha : normalizeItem a ∈ seen
    · rw [if_pos ha] at hx
      exact ih seen x hx
    · rw [if_neg ha] at hx
      rcases List.mem_cons.mp hx with hx | hx
      · subst hx; exact ha
      · intro hmem
        exact (ih _ x hx) (List.mem_cons_of_mem _ hmem)

theorem dedupGo_pairwise (l : List BlackItem) (seen : List (List Char)) :
    (dedupGo seen l).Pairwise
      (fun a b => normalizeItem a ≠ normalizeItem b) := by
  induction l generalizing seen with
  | nil => exact List.Pairwise.nil
  | cons a l ih =>
    unfold dedupGo
    by_cases ha : normalizeItem a ∈ seen
    · rw [if_pos ha]; exact ih seen
    · rw [if_neg ha]
      refine List.Pairwise.cons ?_ (ih _)
      intro b hb heq
      exact (dedupGo_norm_notin_seen l (normalizeItem a :: seen) b hb)
        (heq ▸ List.mem_cons_self _ _)

theorem dedupGo_find? (l : List BlackItem) (seen : List (List Char))
    (key : List Char) (hk : key ∉ seen) :
    (dedupGo seen l).find? (fun b => normalizeItem b == key) =
      l.find? (fun b => normalizeItem b == key) := by
  induction l generalizing seen with
  | nil => rfl
  | cons a l ih =>
    unfold dedupGo
    by_cases ha : normalizeItem a ∈ seen
    · have hne : (normalizeItem a == key) = false := by
        apply beq_false_of_ne
        intro h
        exact hk (h ▸ ha)
      rw [if_pos ha]
      simp only [List.find?_cons, hne]
      exact ih seen hk
    · rw [if_neg ha]
      by_cases hkey : (normalizeItem a == key) = true
      · simp only [List.find?_cons, hkey]
      · have hf : (normalizeItem a == key) = false := by
          cases h : (normalizeItem a == key)
          · rfl
          · exact absurd h hkey
        simp only [List.find?_cons, hf]
        refine ih _ ?_
        intro hmem
        rcases List.mem_cons.mp hmem with h | h
        · exact hkey (beq_iff_eq.mpr h.symm)
        · exact hk h

/-- C4 (amended): inserting via `addToBlackList` into the filter found by id
de-duplicates the concatenation `existing ++ new` on trim-only normalized
identity; the result has pairwise-distinct identities (exactly one entry per
identity) and, for any identity, keeps the first entry of `existing ++ new`
carrying it — so on a collision the EARLIER (already present) entry's expiry
metadata survives, not the newly inserted one's. -/
theorem claim4_amended_dedup_keeps_earlier (f : Filter) (rest : List Filter)
    (now : Nat) (id key : List Char) (items : List (List Char))
    (exp : Option Nat) (h : f.id = id) :
    addToBlackList (f :: rest) now id items exp =
      (addBlackUpdate now items exp f :: rest, true) ∧
    ((addBlackUpdate now items exp f).blackList).Pairwise
      (fun a b => normalizeItem a ≠ normalizeItem b) ∧
    (addBlackUpdate now items exp f).blackList.find?
        (fun b => normalizeItem b == key) =
      (f.blackList ++ items.map (newBlackEntry now exp)).find?
        (fun b => normalizeItem b == key) := by
  refine ⟨?_, ?_, ?_⟩
  · unfold addToBlackList updateFirst
    rw [if_pos (beq_iff_eq.mpr h)]
  · exact dedupGo_pairwise _ []
  · exact dedupGo_find? _ [] key (by intro hx; cases hx)

/-- A filter already holding the permanent deny entry `"a"`. -/
def cex4State : Filter := ⟨defaultId, [BlackItem.plain ['a']], [], 0, 0, true⟩

/-- Counterexample to C4: inserting `"a"` with a 5-second expiry into
`cex4State` (whose deny list already holds the permanent entry `"a"`)
leaves the deny list holding the OLD permanent entry, not an entry with the
newly inserted expiry metadata — the claim says the later entry's expiry
metadata should have been kept. -/
theorem claim4_counterexample :
    (addToBlackList [cex4State] 0 defaultId [['a']] (some 5)).1.map
        Filter.blackList = [[BlackItem.plain ['a']]] ∧
    (BlackItem.plain ['a'] ≠ BlackItem.timed ['a'] (some 5000)) ∧
    newBlackEntry 0 (some 5) ['a'] = BlackItem.timed ['a'] (some 5000) := by
  decide

/-- Witness for the amended C4 at the concrete colliding insert. -/
theorem claim4_witness :
    addToBlackList [cex4State] 0 defaultId [['a']] (some 5) =
      (addBlackUpdate 0 [['a']] (some 5) cex4State :: [], true) ∧
    ((addBlackUpdate 0 [['a']] (some 5) cex4State).blackList).Pairwise
      (fun a b => normalizeItem a ≠ normalizeItem b) ∧
    (addBlackUpdate 0 [['a']] (some 5) cex4State).blackList.find?
        (fun b => normalizeItem b == ['a']) =
      (cex4State.blackList ++ [['a']].map (newBlackEntry 0 (some 5))).find?
        (fun b => normalizeItem b == ['a']) :=
  claim4_amended_dedup_keeps_earlier cex4State [] 0 defaultId ['a'] [['a']]
    (some 5) rfl

/-! ### C7: the expiry sweep is idempotent and persists only on removal -/

theorem sweepFilter_blackList (now : Nat) (f : Filter) :
    (sweepFilter now f).blackList = f.blackList.filter (keepEntry now) := by
  simp only [sweepFilter]
  split <;> rfl

theorem sweepFilter_of_no_removal (now : Nat) (g : Filter)
    (h : g.blackList.filter (keepEntry now) = g.blackList) :
    sweepFilter now g = g := by
  simp only [sweepFilter, h]
  rw [if_neg (Nat.lt_irrefl _)]

theorem sweepFilter_idem (now : Nat) (f : Filter) :
    sweepFilter now (sweepFilter now f) = sweepFilter now f := by
  apply sweepFilter_of_no_removal
  rw [sweepFilter_blackList, List.filter_filter]
  have hp : (fun a => keepEntry now a && keepEntry now a) = keepEntry now :=
    funext fun a => Bool.and_self _
  rw [hp]

theorem sweepFilter_no_expired (now : Nat) (f : Filter) :
    (sweepFilter now f).blackList.any (isExpiredEntry now) = false := by
  rw [sweepFilter_blackList]
  refine List.any_eq_false.mpr ?_
  intro b hb
  have hk : keepEntry now b = true := (List.mem_filter.mp hb).2
  simp only [keepEntry] at hk
  cases h : isExpiredEntry now b
  · simp
  · rw [h] at hk
    cases hk

/-- C7: running the expiry sweep twice at the same instant (no new
expirations between the runs) leaves the table exactly as after one run and
reports no change (so nothing is persisted by the second run); and a sweep
run's persistence flag is set exactly when at least one deny entry of some
filter is currently expired, i.e. is removed. -/
theorem claim7_sweep_idempotent (now : Nat) (filters : List Filter) :
    cleanExpiredBlacklistItems now
        (cleanExpiredBlacklistItems now filters).1 =
      ((cleanExpiredBlacklistItems now filters).1, false) ∧
    ((cleanExpiredBlacklistItems now filters).2 = true ↔
      ∃ f ∈ filters, ∃ b ∈ f.blackList, isExpiredEntry now b = true) := by
  constructor
  · refine Prod.ext ?_ ?_
    · show ((filters.map (sweepFilter now)).map (sweepFilter now)) = _
      rw [List.map_map]
      have hcomp : sweepFilter now ∘ sweepFilter now = sweepFilter now :=
        funext fun f => sweepFilter_idem now f
      rw [hcomp]
      rfl
    · show (filters.map (sweepFilter now)).any _ = false
      rw [List.any_map]
      refine List.any_eq_false.mpr ?_
      intro f hf
      simp only [Function.comp]
      rw [sweepFilter_no_expired]
      simp
  · simp [cleanExpiredBlacklistItems, List.any_eq_true]

/-! ### C9: `createFilter` always uses the constant id `"default"` -/

/-- C9: every `createFilter` call returns a filter whose id is the constant
`"default"` and appends it to the table; after two `createFilter` calls
starting from an empty table the table holds two filters with the same id,
and the id-based operations (`getFilter`, `addToBlackList`, `toggleFilter`,
`deleteFilter`) address only the first-created one. -/
theorem claim9_createFilter_constant_default_id (fs : List Filter)
    (now now1 now2 now3 : Nat) (bl wl b1 w1 b2 w2 : List (List Char))
    (items : List (List Char)) (exp : Option Nat) :
    (createFilter fs now bl wl).2.id = defaultId ∧
    (createFilter fs now bl wl).1 = fs ++ [(createFilter fs now bl wl).2] ∧
    (createFilter (createFilter [] now1 b1 w1).1 now2 b2 w2).1 =
      [(createFilter [] now1 b1 w1).2,
       (createFilter (createFilter [] now1 b1 w1).1 now2 b2 w2).2] ∧
    (createFilter [] now1 b1 w1).2.id =
      (createFilter (createFilter [] now1 b1 w1).1 now2 b2 w2).2.id ∧
    getFilter (createFilter (createFilter [] now1 b1 w1).1 now2 b2 w2).1
        defaultId = some (createFilter [] now1 b1 w1).2 ∧
    (addToBlackList
        (createFilter (createFilter [] now1 b1 w1).1 now2 b2 w2).1
        now3 defaultId items exp).1 =
      [addBlackUpdate now3 items exp (createFilter [] now1 b1 w1).2,
       (createFilter (createFilter [] now1 b1 w1).1 now2 b2 w2).2] ∧
    (toggleFilter (createFilter (createFilter [] now1 b1 w1).1 now2 b2 w2).1
        now3 defaultId (some false)).1 =
      [{ (createFilter [] now1 b1 w1).2 with
          isActive := false, updatedAt := now3 },
       (createFilter (createFilter [] now1 b1 w1).1 now2 b2 w2).2] ∧
    (deleteFilter (createFilter (createFilter [] now1 b1 w1).1 now2 b2 w2).1
        defaultId).1 =
      [(createFilter (createFilter [] now1 b1 w1).1 now2 b2 w2).2] :=
  ⟨rfl, rfl, rfl, rfl, rfl, rfl, rfl, rfl⟩

/-! ## SpamCleaner (`src/filters/spam-cleaner.ts`)

The character-run pass works on the matches of the global regex
`/(.)\1{2,}/g`.  `.` does not match the JS line terminators, and greedy
matching with a `g`-scan makes the matches exactly the maximal runs of three
or more identical non-line-terminator characters, in order.  The embedding
therefore factors the text through its run-length encoding. -/

/-- JS line terminators, which `.` does not match. -/
def isLineTerm (c : Char) : Bool :=
  c = '\n' || c = '\r' || c = Char.ofNat 0x2028 || c = Char.ofNat 0x2029

/-- Run-length encoding helper: currently inside a run of `n` copies of
`c`. -/
def runsAux (c : Char) (n : Nat) : List Char → List (Char × Nat)
  | [] => [(c, n)]
  | d :: rest =>
    if d = c then runsAux c (n + 1) rest else (c, n) :: runsAux d 1 rest

/-- Run-length encoding of a text: its maximal runs in order. -/
def rle : List Char → List (Char × Nat)
  | [] => []
  | c :: rest => runsAux c 1 rest

/-- The match list of `text.match(/(.)\1{2,}/g)`: the maximal runs of length
at least 3 of a non-line-terminator character. -/
def runMatches (text : List Char) : List (Char × Nat) :=
  (rle text).filter (fun p => 3 ≤ p.2 && !isLineTerm p.1)

/-- The replacement callback of `cleanRepeatedChars` applied to one run: a
regex match (length ≥ 3, non-line-terminator) whose length reaches
`minRepetitions` becomes two characters; anything else is kept verbatim. -/
def collapseRun (minRep : Nat) (p : Char × Nat) : List Char :=
  if 3 ≤ p.2 && !isLineTerm p.1 && minRep ≤ p.2 then [p.1, p.1]
  else List.replicate p.2 p.1

/-- The `text.replace(/(.)\1{2,}/g, cb)` call of `cleanRepeatedChars`. -/
def replaceRuns (minRep : Nat) (text : List Char) : List Char :=
  ((rle text).map (collapseRun minRep)).flatten

/-- Result of the character-run pass (the fields of `CleanerResult` the
pass computes; `original` and `reductionPercentage` are derived display
fields). -/
structure CharCleanResult where
  cleaned : List Char
  wasSpam : Bool
  repetitionsFound : Nat
  pattern : Option Char
  deriving DecidableEq, Repr

/-- Source `SpamCleaner.cleanRepeatedChars`: compute the maximal length of a
match reaching `minRepetitions` (and the last such match's character), mark
spam when it reaches `minRepetitions`, and only then rewrite the text. -/
def cleanRepeatedChars (minRep : Nat) (text : List Char) : CharCleanResult :=
  let ms := runMatches text
  let maxRepetitions :=
    ms.foldl (fun acc p => if minRep ≤ p.2 then Nat.max acc p.2 else acc) 0
  let spamChar :=
    ms.foldl (fun acc p => if minRep ≤ p.2 then some p.1 else acc)
      (Option.none : Option Char)
  if minRep ≤ maxRepetitions then
    ⟨replaceRuns minRep text, true, maxRepetitions, spamChar⟩
  else
    ⟨text, false, maxRepetitions, spamChar⟩

/-- Counterexample to C6: with `minRepetitions = 4` and text `"aaaabbb"`,
the run `"aaaa"` qualifies, so the pass marks spam; but the run `"bbb"`
(length 3, below `minRepetitions`) is NOT collapsed: the cleaned text is
`"aabbb"`, not the `"aabb"` the claim requires. -/
theorem claim6_counterexample :
    (cleanRepeatedChars 4 ['a', 'a', 'a', 'a', 'b', 'b', 'b']).wasSpam =
      true ∧
    (cleanRepeatedChars 4 ['a', 'a', 'a', 'a', 'b', 'b', 'b']).cleaned =
      ['a', 'a', 'b', 'b', 'b'] ∧
    (['a', 'a', 'b', 'b', 'b'] : List Char) ≠ ['a', 'a', 'b', 'b'] := by
  decide

theorem foldl_maxRep_ge_acc (minRep : Nat) (l : List (Char × Nat))
    (acc : Nat) :
    acc ≤ l.foldl
      (fun acc p => if minRep ≤ p.2 then Nat.max acc p.2 else acc) acc := by
  induction l generalizing acc with
  | nil => exact Nat.le_refl acc
  | cons q l ih =>
    rw [List.foldl_cons]
    by_cases hq : minRep ≤ q.2
    · rw [if_pos hq]
      exact Nat.le_trans (Nat.le_max_left acc q.2) (ih _)
    · rw [if_neg hq]
      exact ih acc

theorem foldl_maxRep_reaches (minRep : Nat) (l : List (Char × Nat))
    (acc : Nat) (h : ∃ p ∈ l, minRep ≤ p.2) :
    minRep ≤ l.foldl
      (fun acc p => if minRep ≤ p.2 then Nat.max acc p.2 else acc) acc := by
  induction l generalizing acc with
  | nil => rcases h with ⟨p, hp, _⟩; cases hp
  | cons q l ih =>
    rw [List.foldl_cons]
    rcases h with ⟨p, hp, hpm⟩
    rcases List.mem_cons.mp hp with hpq | hpl
    · subst hpq
      rw [if_pos hpm]
      exact Nat.le_trans (Nat.le_trans hpm (Nat.le_max_right acc p.2))
        (foldl_maxRep_ge_acc minRep l _)
    · by_cases hq : minRep ≤ q.2
      · rw [if_pos hq]
        exact ih _ ⟨p, hpl, hpm⟩
      · rw [if_neg hq]
        exact ih _ ⟨p, hpl, hpm⟩

theorem collapseRun_eq (minRep : Nat) (p : Char × Nat) :
    collapseRun minRep p =
      if 3 ≤ p.2 ∧ isLineTerm p.1 = false ∧ minRep ≤ p.2 then
        List.replicate 2 p.1
      else List.replicate p.2 p.1 := by
  unfold collapseRun
  by_cases h3 : 3 ≤ p.2
  · by_cases hlt : isLineTerm p.1 = false
    · by_cases hm : minRep ≤ p.2
      · rw [if_pos (by simp [h3, hlt, hm]), if_pos ⟨h3, hlt, hm⟩]
        rfl
      · rw [if_neg (by simp [hm]), if_neg (by intro hc; exact hm hc.2.2)]
    · have hlt' : isLineTerm p.1 = true := by
        cases h : isLineTerm p.1
        · exact absurd h hlt
        · rfl
      rw [if_neg (by simp [hlt']), if_neg (by intro hc; exact hlt hc.2.1)]
  · rw [if_neg (by simp [h3]), if_neg (by intro hc; exact h3 hc.1)]

/-- C6 (amended): for every text and `minRepetitions`, if the character-run
pass finds a maximal run of identical consecutive non-line-terminator
characters of length ≥ 3 that also reaches `minRepetitions`, it marks the
result as spam; it then collapses to exactly two characters precisely the
runs of length ≥ 3 that themselves reach `minRepetitions`, and keeps every
other run — including runs of length ≥ 3 shorter than `minRepetitions` —
verbatim. -/
theorem claim6_amended_collapse_only_qualifying_runs (minRep : Nat)
    (text : List Char) (h : ∃ p ∈ runMatches text, minRep ≤ p.2) :
    (cleanRepeatedChars minRep text).wasSpam = true ∧
    (cleanRepeatedChars minRep text).cleaned =
      ((rle text).map (fun p =>
        if 3 ≤ p.2 ∧ isLineTerm p.1 = false ∧ minRep ≤ p.2 then
          List.replicate 2 p.1
        else List.replicate p.2 p.1)).flatten := by
  have hmax : minRep ≤ (runMatches text).foldl
      (fun acc p => if minRep ≤ p.2 then Nat.max acc p.2 else acc) 0 :=
    foldl_maxRep_reaches minRep (runMatches text) 0 h
  constructor
  · simp only [cleanRepeatedChars]
    rw [if_pos hmax]
  · simp only [cleanRepeatedChars]
    rw [if_pos hmax]
    show replaceRuns minRep text = _
    unfold replaceRuns
    rw [List.map_congr_left (fun p _ => collapseRun_eq minRep p)]

/-- A qualifying run for the witness instance of the amended C6. -/
theorem claim6_witness :
    (∃ p ∈ runMatches ['a', 'a', 'a', 'a', 'b', 'b', 'b'], 4 ≤ p.2) ∧
    ((cleanRepeatedChars 4 ['a', 'a', 'a', 'a', 'b', 'b', 'b']).wasSpam =
      true ∧
    (cleanRepeatedChars 4 ['a', 'a', 'a', 'a', 'b', 'b', 'b']).cleaned =
      ((rle ['a', 'a', 'a', 'a', 'b', 'b', 'b']).map (fun p =>
        if 3 ≤ p.2 ∧ isLineTerm p.1 = false ∧ 4 ≤ p.2 then
          List.replicate 2 p.1
        else List.replicate p.2 p.1)).flatten) :=
  ⟨⟨('a', 4), by decide⟩,
   claim6_amended_collapse_only_qualifying_runs 4
     ['a', 'a', 'a', 'a', 'b', 'b', 'b'] ⟨('a', 4), by decide⟩⟩

/-! ### C8: the truncation boundary of `clean` -/

/-- Final step of `SpamCleaner.clean`: when the cleaned intermediate text
exceeds `maxLength`, cut to `maxLength - 3` characters and append the
ellipsis marker `"..."` (`currentText.substring(0, maxLength - 3) + '...'`). -/
def truncateStep (maxLength : Nat) (currentText : List Char) : List Char :=
  if maxLength < currentText.length then
    (currentText.take (maxLength - 3)) ++ ['.', '.', '.']
  else currentText

/-- C8: whenever the cleaned intermediate text of `clean` exceeds
`maxLength` (with `maxLength ≥ 3`), the returned cleaned string has length
exactly `maxLength` and its last three characters are the ellipsis marker
`"..."`. -/
theorem claim8_truncation_boundary (maxLength : Nat) (t : List Char)
    (h3 : 3 ≤ maxLength) (hlen : maxLength < t.length) :
    (truncateStep maxLength t).length = maxLength ∧
    (truncateStep maxLength t).drop (maxLength - 3) = ['.', '.', '.'] := by
  have htake : (t.take (maxLength - 3)).length = maxLength - 3 := by
    rw [List.length_take]
    exact min_eq_left (Nat.le_trans (Nat.sub_le _ _) (Nat.le_of_lt hlen))
  constructor
  · unfold truncateStep
    rw [if_pos hlen, List.length_append, htake]
    show maxLength - 3 + 3 = maxLength
    exact Nat.sub_add_cancel h3
  · unfold truncateStep
    rw [if_pos hlen]
    calc (t.take (maxLength - 3) ++ ['.', '.', '.']).drop (maxLength - 3)
        = (t.take (maxLength - 3) ++ ['.', '.', '.']).drop
            (t.take (maxLength - 3)).length := by rw [htake]
      _ = ['.', '.', '.'] := List.drop_left _ _

/-- Witness for C8 at `maxLength = 5` and an 8-character intermediate
text. -/
theorem claim8_witness :
    3 ≤ 5 ∧
    5 < (['a', 'b', 'c', 'd', 'e', 'f', 'g', 'h'] : List Char).length ∧
    ((truncateStep 5 ['a', 'b', 'c', 'd', 'e', 'f', 'g', 'h']).length = 5 ∧
     (truncateStep 5 ['a', 'b', 'c', 'd', 'e', 'f', 'g', 'h']).drop (5 - 3) =
       ['.', '.', '.']) :=
  ⟨by decide, by decide,
   claim8_truncation_boundary 5 ['a', 'b', 'c', 'd', 'e', 'f', 'g', 'h']
     (by decide) (by decide)⟩

/-! ## ConfigurableReplacer (`src/controllers/ConfigurableReplacer.ts`)

`replaceInString` iterates the configured replacements in declaration order
(`Object.entries` preserves insertion order for these string keys) and, for
each, performs `currentText.replace(new RegExp(escapeRegExp(pattern), "g"),
value)`.  Since the pattern is escaped, this is global literal replacement:
non-overlapping occurrences are substituted left to right and scanning
resumes after the substituted value, never inside it.  The model restricts
to non-empty patterns (the empty pattern never arises from the
configurations the claims quantify over). -/

/-- One configured replacement target: `{ dataKey, defaultValue }`. -/
structure ReplacementOption where
  dataKey : List Char
  defaultValue : List Char
  deriving DecidableEq, Repr

/-- Value substituted for a pattern:
`String(data[dataKey] === undefined ? defaultValue : data[dataKey])`, with
the data record modelled as an association list of string values. -/
def valueToReplaceWith (data : List (List Char × List Char))
    (opt : ReplacementOption) : List Char :=
  match (data.find? (fun kv => kv.1 == opt.dataKey)).map (fun kv => kv.2) with
  | some v => v
  | Option.none => opt.defaultValue

/-- Fuelled global literal replacement; the fuel (initially the text length)
only serves termination and never runs out. -/
def replaceAllFuel (p r : List Char) : Nat → List Char → List Char
  | _, [] => []
  | 0, s => s
  | fuel + 1, c :: s =>
    if !p.isEmpty && startsWithL p (c :: s) then
      r ++ replaceAllFuel p r fuel (List.drop (p.length - 1) s)
    else c :: replaceAllFuel p r fuel s

/-- JS `text.replace(new RegExp(escapeRegExp(p), "g"), r)` for a non-empty
literal pattern `p`. -/
def replaceAllL (p r s : List Char) : List Char :=
  replaceAllFuel p r s.length s

/-- The pattern loop of `replaceInString`: fold the replacements in
declaration order over the current text state. -/
def replaceCore (replacements : List (List Char × ReplacementOption))
    (data : List (List Char × List Char)) (text : List Char) : List Char :=
  replacements.foldl
    (fun acc pr => replaceAllL pr.1 (valueToReplaceWith data pr.2) acc) text

/-- Source `ConfigurableReplacer.replaceInString`: the pattern loop followed
by the optional backslash strip (`replace(/\\/g, "")`). -/
def replaceInString (replacements : List (List Char × ReplacementOption))
    (removeBackslashes : Bool) (data : List (List Char × List Char))
    (text : List Char) : List Char :=
  if removeBackslashes then
    (replaceCore replacements data text).filter (fun c => c ≠ '\\')
  else replaceCore replacements data text

theorem replaceAllFuel_cons (p r : List Char) (fuel : Nat) (c : Char)
    (s : List Char) :
    replaceAllFuel p r (fuel + 1) (c :: s) =
      if !p.isEmpty && startsWithL p (c :: s) then
        r ++ replaceAllFuel p r fuel (List.drop (p.length - 1) s)
      else c :: replaceAllFuel p r fuel s := rfl

theorem replaceAllFuel_congr (p r : List Char) :
    ∀ (f1 f2 : Nat) (s : List Char), s.length ≤ f1 → s.length ≤ f2 →
      replaceAllFuel p r f1 s = replaceAllFuel p r f2 s := by
  intro f1
  induction f1 with
  | zero =>
    intro f2 s h1 _
    have hs : s = [] := List.length_eq_zero.mp (Nat.le_zero.mp h1)
    subst hs
    cases f2 <;> rfl
  | succ f1 ih =>
    intro f2 s h1 h2
    cases s with
    | nil => cases f2 <;> rfl
    | cons c s =>
      cases f2 with
      | zero => exact absurd h2 (by simp)
      | succ f2 =>
        rw [replaceAllFuel_cons, replaceAllFuel_cons]
        have hs1 : s.length ≤ f1 := by simpa using h1
        have hs2 : s.length ≤ f2 := by simpa using h2
        by_cases hc : (!p.isEmpty && startsWithL p (c :: s)) = true
        · rw [if_pos hc, if_pos hc]
          congr 1
          have hd : (List.drop (p.length - 1) s).length ≤ s.length := by
            rw [List.length_drop]
            exact Nat.sub_le _ _
          exact ih f2 _ (Nat.le_trans hd hs1) (Nat.le_trans hd hs2)
        · rw [if_neg hc, if_neg hc]
          congr 1
          exact ih f2 s hs1 hs2

theorem replaceAllL_cons (p r : List Char) (c : Char) (s : List Char) :
    replaceAllL p r (c :: s) =
      if !p.isEmpty && startsWithL p (c :: s) then
        r ++ replaceAllL p r (List.drop (p.length - 1) s)
      else c :: replaceAllL p r s := by
  show replaceAllFuel p r (s.length + 1) (c :: s) = _
  rw [replaceAllFuel_cons]
  by_cases hc : (!p.isEmpty && startsWithL p (c :: s)) = true
  · rw [if_pos hc, if_pos hc]
    congr 1
    refine replaceAllFuel_congr p r s.length _ _ ?_ (Nat.le_refl _)
    rw [List.length_drop]
    exact Nat.sub_le _ _
  · rw [if_neg hc, if_neg hc]
    rfl

theorem startsWithL_append_self (p s : List Char) :
    startsWithL p (p ++ s) = true := by
  induction p with
  | nil => rfl
  | cons c p ih =>
    show (c = c && startsWithL p (p ++ s)) = true
    rw [ih]
    simp

/-- A configuration whose first pattern's substitution value contains the
second pattern: `"a" ↦ "bb"` then `"b" ↦ "c"`. -/
def cex2Reps : List (List Char × ReplacementOption) :=
  [(['a'], ⟨['k'], ['b', 'b']⟩), (['b'], ⟨['m'], ['c']⟩)]

/-- Counterexample to C2: on input `"a"`, the first pattern substitutes
`"bb"`, and the second pattern then matches INSIDE that substitution value,
producing `"cc"` — the claim that no later pattern ever matches inside text
produced as a substitution value by an earlier pattern would require the
output `"bb"`. -/
theorem claim2_counterexample :
    replaceInString cex2Reps true [] ['a'] = ['c', 'c'] ∧
    replaceAllL ['a'] ['b', 'b'] ['a'] = ['b', 'b'] ∧
    containsSub ['b', 'b'] ['b'] = true ∧
    (['c', 'c'] : List Char) ≠ ['b', 'b'] := by decide

/-- C2 (amended): patterns are applied in mapping-declaration order — the
pass over a concatenated mapping is the second part applied to the output of
the first — and within one pattern's global pass a substitution's output is
never re-scanned for that same pattern: substituting at an occurrence
resumes scanning after the substituted value (even when the value contains
the pattern), and a pattern never fires on text in which it does not occur.
Later patterns, however, scan the full updated text, including earlier
substitutions' output. -/
theorem claim2_amended_order_and_same_pattern_no_rescan
    (ms1 ms2 : List (List Char × ReplacementOption))
    (data : List (List Char × List Char)) (text : List Char)
    (p r s : List Char) (hp : p ≠ []) :
    replaceCore (ms1 ++ ms2) data text =
      replaceCore ms2 data (replaceCore ms1 data text) ∧
    replaceAllL p r (p ++ s) = r ++ replaceAllL p r s ∧
    (containsSub s p = false → replaceAllL p r s = s) := by
  refine ⟨?_, ?_, ?_⟩
  · unfold replaceCore
    exact List.foldl_append _ _ _ _
  · cases p with
    | nil => exact absurd rfl hp
    | cons c ps =>
      rw [List.cons_append, replaceAllL_cons]
      have hsw : startsWithL (c :: ps) ((c :: ps) ++ s) = true :=
        startsWithL_append_self (c :: ps) s
      rw [List.cons_append] at hsw
      rw [if_pos (by simp [hsw])]
      congr 1
      show replaceAllL (c :: ps) r (List.drop ps.length (ps ++ s)) = _
      rw [List.drop_left]
  · intro hno
    induction s with
    | nil => rfl
    | cons c s ih =>
      have hns : startsWithL p (c :: s) = false ∧ containsSub s p = false := by
        have : (startsWithL p (c :: s) || containsSub s p) = false := hno
        exact Bool.or_eq_false_iff.mp this
      rw [replaceAllL_cons, if_neg (by simp [hns.1]), ih hns.2]

/-- Witness for the amended C2 at the concrete two-pattern configuration. -/
theorem claim2_witness :
    replaceCore ([(['a'], ⟨['k'], ['b', 'b']⟩)] ++ [(['b'], ⟨['m'], ['c']⟩)])
        [] ['a'] =
      replaceCore [(['b'], ⟨['m'], ['c']⟩)] []
        (replaceCore [(['a'], ⟨['k'], ['b', 'b']⟩)] [] ['a']) ∧
    replaceAllL ['a'] ['b', 'b'] (['a'] ++ ['x']) =
      ['b', 'b'] ++ replaceAllL ['a'] ['b', 'b'] ['x'] ∧
    (containsSub ['x'] ['a'] = false →
      replaceAllL ['a'] ['b', 'b'] ['x'] = ['x']) :=
  claim2_amended_order_and_same_pattern_no_rescan
    [(['a'], ⟨['k'], ['b', 'b']⟩)] [(['b'], ⟨['m'], ['c']⟩)] [] ['a']
    ['a'] ['b', 'b'] ['x'] (by decide)

end TtsEdge
